import Mathlib

/-!
Verification of the VTubersTV `node-utils` core against its specification.

The development shallowly embeds the two source files that carry the
system's invariants:

* `src/classes/Helix.ts` — the Snowflake-style id generator and the
  HMAC-signed token codec (both the naive and the optimized variant of
  the class appear in the source file; definitions below mirror each).
* `src/classes/auth.ts` — the session authority: access-token
  validation, TOTP verification, device-type detection and session
  cleanup.

Machine integers in the source are JS `number`/`BigInt`; ids are built
with `BigInt` (arbitrary precision), so they are embedded as `Nat`/`Int`
with explicit masks where the source masks.  External collaborators
(Node's `crypto` HMAC, `Buffer` UTF-8 transcoding, `JSON`) are taken as
function parameters; everything written in the repository itself is
translated directly.
-/

namespace NodeUtils

/-! ## Helix constants (`Helix.ts`, lines 28–40) -/

def EPOCH : Nat := 1420070400000

def TIMESTAMP_BITS : Nat := 42

def WORKER_ID_BITS : Nat := 10

def SEQUENCE_BITS : Nat := 12

def MAX_WORKER_ID : Nat := (1 <<< WORKER_ID_BITS) - 1

def MAX_SEQUENCE : Nat := (1 <<< SEQUENCE_BITS) - 1

def TIMESTAMP_SHIFT : Nat := WORKER_ID_BITS + SEQUENCE_BITS

def WORKER_ID_SHIFT : Nat := SEQUENCE_BITS

/-- The `HelixError` class: an error tagged only with its message. -/
structure HelixError where
  message : String
deriving DecidableEq

/-! ## Id composition

`Helix.generateId` (naive variant, lines 93–97) composes the id as

    (BigInt(timestamp - EPOCH) << 22n) | (BigInt(workerId) << 12n) | BigInt(sequence)

with no masking; `BigInt` is arbitrary precision, so this is plain `Nat`
arithmetic for timestamps at or after the epoch. -/

def composeId (timestamp workerId sequence : Nat) : Nat :=
  ((timestamp - EPOCH) <<< TIMESTAMP_SHIFT) |||
    (workerId <<< WORKER_ID_SHIFT) ||| sequence

/-- The optimized variant's `generateIdWithTimestamp` (lines 345–353):
the timestamp offset and sequence are masked with the pre-calculated
`timestampMask`/`sequenceMask`, the worker id is cached pre-shifted
(`workerIdShifted`, line 291, built without masking). -/
def generateIdWithTimestamp (workerId sequence timestamp : Nat) : Nat :=
  let timestampMask : Nat := (1 <<< TIMESTAMP_BITS) - 1
  let sequenceMask : Nat := (1 <<< SEQUENCE_BITS) - 1
  let workerIdShifted : Nat := workerId <<< WORKER_ID_SHIFT
  (((timestamp - EPOCH) &&& timestampMask) <<< TIMESTAMP_SHIFT) |||
    workerIdShifted ||| (sequence &&& sequenceMask)

/-- `Helix.decodeId` (lines 162–178): inverse bit extraction.  The
source wraps the first component in a `Date`; we keep the raw
millisecond value. -/
def decodeId (id : Nat) : Nat × Nat × Nat :=
  ((id >>> TIMESTAMP_SHIFT) + EPOCH,
   (id >>> WORKER_ID_SHIFT) &&& MAX_WORKER_ID,
   id &&& MAX_SEQUENCE)

/-! ### Arithmetic characterisation of the bit layout -/

theorem max_worker_id_eq : MAX_WORKER_ID = 1023 := by decide

theorem max_sequence_eq : MAX_SEQUENCE = 4095 := by decide

/-- Disjoint-field composition is plain positional arithmetic. -/
theorem composeId_eq (t w s : Nat) (hw : w ≤ 1023) (hs : s ≤ 4095) :
    composeId t w s = (t - EPOCH) * 2 ^ 22 + w * 2 ^ 12 + s := by
  have hws : w * 2 ^ 12 + s < 2 ^ 22 := by omega
  have h1 : (t - EPOCH) * 2 ^ 22 + (w * 2 ^ 12 + s)
      = (t - EPOCH) * 2 ^ 22 ||| (w * 2 ^ 12 + s) := by
    have := Nat.mul_add_lt_is_or (i := 22) hws (t - EPOCH)
    simpa [Nat.mul_comm] using this
  have h2 : w * 2 ^ 12 + s = w * 2 ^ 12 ||| s := by
    have hs' : s < 2 ^ 12 := by omega
    have := Nat.mul_add_lt_is_or (i := 12) hs' w
    simpa [Nat.mul_comm] using this
  calc composeId t w s
      = (t - EPOCH) * 2 ^ 22 ||| (w * 2 ^ 12 ||| s) := by
        simp [composeId, TIMESTAMP_SHIFT, WORKER_ID_SHIFT, WORKER_ID_BITS,
          SEQUENCE_BITS, Nat.shiftLeft_eq, Nat.lor_assoc]
    _ = (t - EPOCH) * 2 ^ 22 + (w * 2 ^ 12 + s) := by rw [h1, h2]
    _ = (t - EPOCH) * 2 ^ 22 + w * 2 ^ 12 + s := by omega

/-- Decoding recovers the timestamp of an in-layout id. -/
theorem decodeId_fst (t w s : Nat) (hw : w ≤ 1023) (hs : s ≤ 4095)
    (ht : EPOCH ≤ t) :
    (decodeId (composeId t w s)).1 = t := by
  rw [composeId_eq t w s hw hs]
  simp only [decodeId, TIMESTAMP_SHIFT, WORKER_ID_BITS, SEQUENCE_BITS,
    Nat.shiftRight_eq_div_pow]
  omega

/-- Decoding recovers the worker id of an in-layout id. -/
theorem decodeId_workerId (t w s : Nat) (hw : w ≤ 1023) (hs : s ≤ 4095) :
    (decodeId (composeId t w s)).2.1 = w := by
  rw [composeId_eq t w s hw hs]
  simp only [decodeId, WORKER_ID_SHIFT, SEQUENCE_BITS, max_worker_id_eq,
    Nat.shiftRight_eq_div_pow]
  have h1023 : (1023 : Nat) = 2 ^ 10 - 1 := by decide
  rw [h1023, Nat.and_pow_two_sub_one_eq_mod]
  omega

/-- Decoding recovers the sequence of an in-layout id. -/
theorem decodeId_sequence (t w s : Nat) (hw : w ≤ 1023) (hs : s ≤ 4095) :
    (decodeId (composeId t w s)).2.2 = s := by
  rw [composeId_eq t w s hw hs]
  simp only [decodeId, max_sequence_eq]
  have h4095 : (4095 : Nat) = 2 ^ 12 - 1 := by decide
  rw [h4095, Nat.and_pow_two_sub_one_eq_mod]
  omega

/-- Strict monotonicity of composition in the (timestamp, sequence)
lexicographic order, for in-range worker ids and sequences. -/
theorem composeId_lt_composeId_of_seq_lt (t w s s' : Nat)
    (hw : w ≤ 1023) (hs' : s' ≤ 4095) (h : s < s') :
    composeId t w s < composeId t w s' := by
  rw [composeId_eq t w s hw (by omega), composeId_eq t w s' hw hs']
  omega

theorem composeId_lt_composeId_of_time_lt (t t' w s s' : Nat)
    (hw : w ≤ 1023) (hs : s ≤ 4095) (hs' : s' ≤ 4095)
    (ht : EPOCH ≤ t) (h : t < t') :
    composeId t w s < composeId t' w s' := by
  rw [composeId_eq t w s hw hs, composeId_eq t' w s' hw hs']
  have : t - EPOCH < t' - EPOCH := by omega
  have hlt : (t - EPOCH) * 2 ^ 22 + 2 ^ 22 ≤ (t' - EPOCH) * 2 ^ 22 := by
    calc (t - EPOCH) * 2 ^ 22 + 2 ^ 22 = (t - EPOCH + 1) * 2 ^ 22 := by ring
      _ ≤ (t' - EPOCH) * 2 ^ 22 := Nat.mul_le_mul_right _ (by omega)
  omega

/-! ## The generator state machine (`Helix.ts` naive variant, lines 42–98)

Mutable instance state is `workerId`, `sequence`, `lastTimestamp`
(initialised to `-1`, hence `Int`).  `generateId` reads `Date.now()`
once (`now`); when the sequence wraps it busy-waits in
`waitForNextMillis` until the clock passes `now` — the value that wait
returns is the parameter `wait`, constrained to `now < wait` in the
theorems below. -/

structure HelixState where
  workerId : Nat
  sequence : Nat
  lastTimestamp : Int
deriving DecidableEq

/-- Constructor state initialisation (lines 54–60). -/
def initHelix (workerId : Nat) : HelixState :=
  { workerId := workerId, sequence := 0, lastTimestamp := -1 }

/-- `Helix.generateId` (lines 73–98). -/
def generateId (s : HelixState) (now wait : Nat) :
    Except HelixError (Nat × HelixState) :=
  if (now : Int) < s.lastTimestamp then
    .error ⟨"Clock moved backwards"⟩
  else if (now : Int) = s.lastTimestamp then
    let sq := (s.sequence + 1) &&& MAX_SEQUENCE
    if sq = 0 then
      .ok (composeId wait s.workerId sq,
        { s with sequence := sq, lastTimestamp := (wait : Int) })
    else
      .ok (composeId now s.workerId sq,
        { s with sequence := sq, lastTimestamp := (now : Int) })
  else
    .ok (composeId now s.workerId 0,
      { s with sequence := 0, lastTimestamp := (now : Int) })

/-- Worker-id validation in the constructor (lines 54–67): the explicit
`workerId` option is stored, then rejected iff it exceeds
`MAX_WORKER_ID`.  JS numbers are signed, hence `Int`. -/
def constructWorkerId (workerId : Int) : Except HelixError Int :=
  if workerId > (MAX_WORKER_ID : Int) then
    .error ⟨"Worker ID exceeds maximum allowed value"⟩
  else
    .ok workerId

theorem seq_and_eq (x : Nat) : x &&& MAX_SEQUENCE = x % 2 ^ 12 := by
  have h : MAX_SEQUENCE = 2 ^ 12 - 1 := by decide
  rw [h, Nat.and_pow_two_sub_one_eq_mod]

/-- One `generateId` call from a reachable state, under a clock reading
that has not gone backwards: it succeeds, preserves the worker id,
keeps the sequence in range, strictly increases the issued id, and the
new `lastTimestamp` is the millisecond stamped into the id. -/
theorem generateId_step (s : HelixState) (now wait m₀ : Nat)
    (hw : s.workerId ≤ 1023) (hseq : s.sequence ≤ 4095)
    (hlast : s.lastTimestamp = (m₀ : Int)) (hE : EPOCH ≤ m₀)
    (hnow : m₀ ≤ now) (hwait : now < wait) :
    ∃ id s', generateId s now wait = .ok (id, s') ∧
      s'.workerId = s.workerId ∧ s'.sequence ≤ 4095 ∧
      composeId m₀ s.workerId s.sequence < id ∧
      ∃ m : Nat, s'.lastTimestamp = (m : Int) ∧ EPOCH ≤ m ∧ m₀ ≤ m ∧
        m ≤ wait ∧ id = composeId m s.workerId s'.sequence := by
  rcases Nat.eq_or_lt_of_le hnow with heq | hlt
  · subst heq
    by_cases h4 : s.sequence = 4095
    · have hgen : generateId s m₀ wait = .ok (composeId wait s.workerId 0,
          { s with sequence := 0, lastTimestamp := (wait : Int) }) := by
        simp only [generateId, hlast, h4, seq_and_eq]
        norm_num
      refine ⟨_, _, hgen, rfl, by exact Nat.zero_le _, ?_, wait, rfl,
        by omega, by omega, le_refl _, rfl⟩
      exact composeId_lt_composeId_of_time_lt m₀ wait s.workerId
        s.sequence 0 hw hseq (by omega) hE hwait
    · have hmod : (s.sequence + 1) % 2 ^ 12 = s.sequence + 1 :=
        Nat.mod_eq_of_lt (by omega)
      have hgen : generateId s m₀ wait = .ok
          (composeId m₀ s.workerId (s.sequence + 1),
           { s with sequence := s.sequence + 1, lastTimestamp := (m₀ : Int) }) := by
        simp only [generateId, hlast, seq_and_eq, hmod]
        norm_num
      refine ⟨_, _, hgen, rfl, by simp; omega, ?_, m₀, rfl, hE, le_refl _,
        by omega, rfl⟩
      exact composeId_lt_composeId_of_seq_lt m₀ s.workerId s.sequence
        (s.sequence + 1) hw (by omega) (by omega)
  · have hgen : generateId s now wait = .ok (composeId now s.workerId 0,
        { s with sequence := 0, lastTimestamp := (now : Int) }) := by
      simp only [generateId, hlast]
      rw [if_neg (by omega), if_neg (by omega)]
    refine ⟨_, _, hgen, rfl, by exact Nat.zero_le _, ?_, now, rfl, by omega,
      by omega, by omega, rfl⟩
    exact composeId_lt_composeId_of_time_lt m₀ now s.workerId
      s.sequence 0 hw hseq (by omega) hE hlt

/-- Running a list of `generateId` calls; each list entry supplies the
`Date.now()` reading seen on entry and the reading that
`waitForNextMillis` would return. -/
def runGenerate (s : HelixState) :
    List (Nat × Nat) → Except HelixError (List Nat × HelixState)
  | [] => .ok ([], s)
  | c :: rest =>
    match generateId s c.1 c.2 with
    | .error e => .error e
    | .ok (id, s') =>
      match runGenerate s' rest with
      | .error e => .error e
      | .ok (ids, s'') => .ok (id :: ids, s'')

/-- The system clock is non-decreasing across a run: each call's entry
reading is at least the state's `lastTimestamp` (the last reading the
previous call took), and the reading the busy-wait loop would return is
strictly later than the entry reading.  The tail is judged against the
state the call actually leaves behind, so the relation allows repeated
entry readings — several calls within the same millisecond — and only
forces a later reading after a genuine sequence-wrap wait. -/
def ValidRun : HelixState → List (Nat × Nat) → Bool
  | _, [] => true
  | s, c :: rest =>
    decide (s.lastTimestamp ≤ (c.1 : Int)) && decide (EPOCH ≤ c.1) &&
      decide (c.1 < c.2) &&
      match generateId s c.1 c.2 with
      | .ok (_, s') => ValidRun s' rest
      | .error _ => true

/-- Run invariant: from a reachable state whose `lastTimestamp` is a
real millisecond `m₀`, a run under non-decreasing clocks succeeds, every
issued id strictly exceeds the previous one (anchored at the id encoded
by the current state), and every issued id is a well-formed composition
for the same worker. -/
theorem runGenerate_inv (clocks : List (Nat × Nat)) :
    ∀ (s : HelixState) (m₀ : Nat), s.workerId ≤ 1023 → s.sequence ≤ 4095 →
    s.lastTimestamp = (m₀ : Int) → EPOCH ≤ m₀ → ValidRun s clocks = true →
    ∃ ids s', runGenerate s clocks = .ok (ids, s') ∧
      s'.workerId = s.workerId ∧
      List.Chain (· < ·) (composeId m₀ s.workerId s.sequence) ids ∧
      (∀ id ∈ ids, ∃ m sq, EPOCH ≤ m ∧ sq ≤ 4095 ∧
        id = composeId m s.workerId sq) := by
  induction clocks with
  | nil =>
    intro s m₀ hw hseq hlast hE _
    exact ⟨[], s, rfl, rfl, List.Chain.nil, by simp⟩
  | cons c rest ih =>
    intro s m₀ hw hseq hlast hE hv
    simp only [ValidRun, Bool.and_eq_true, decide_eq_true_eq] at hv
    obtain ⟨⟨⟨ha, hb⟩, hc⟩, hmatch⟩ := hv
    have hnow : m₀ ≤ c.1 := by
      rw [hlast] at ha
      exact_mod_cast ha
    obtain ⟨id, s', hgen, hw', hseq', hlt, m, hlast', hEm, hm₀m, hmw, hid⟩ :=
      generateId_step s c.1 c.2 m₀ hw hseq hlast hE hnow hc
    simp only [hgen] at hmatch
    obtain ⟨ids, s'', hrun, hw'', hchain, hform⟩ :=
      ih s' m (hw' ▸ hw) hseq' hlast' hEm hmatch
    refine ⟨id :: ids, s'', ?_, by rw [hw'']; exact hw', ?_, ?_⟩
    · simp only [runGenerate, hgen, hrun]
    · refine List.Chain.cons hlt ?_
      rw [hw'] at hchain
      rw [hid]
      exact hchain
    · intro x hx
      rcases List.mem_cons.mp hx with rfl | hx
      · exact ⟨m, s'.sequence, hEm, hseq', hid⟩
      · obtain ⟨m', sq', hm', hsq', hx'⟩ := hform _ hx
        rw [hw'] at hx'
        exact ⟨m', sq', hm', hsq', hx'⟩

theorem chain'_lt_nodup (l : List Nat) (h : List.Chain' (· < ·) l) :
    l.Nodup :=
  (List.chain'_iff_pairwise.mp h).imp Nat.ne_of_lt

/-- At most 4096 distinct well-formed ids share one decoded millisecond. -/
theorem count_per_millis (w : Nat) (hw : w ≤ 1023) (ids : List Nat)
    (hnd : ids.Nodup)
    (hform : ∀ id ∈ ids, ∃ m sq, EPOCH ≤ m ∧ sq ≤ 4095 ∧
      id = composeId m w sq) (T : Nat) :
    (ids.filter (fun id => decide ((decodeId id).1 = T))).length ≤ 4096 := by
  classical
  have hndl : (ids.filter (fun id => decide ((decodeId id).1 = T))).Nodup :=
    hnd.filter _
  have hsub : ∀ x ∈ ids.filter (fun id => decide ((decodeId id).1 = T)),
      x ∈ (Finset.range 4096).image (fun sq => composeId T w sq) := by
    intro x hx
    have hxids : x ∈ ids := List.mem_of_mem_filter hx
    have hpx : (decodeId x).1 = T := by
      have := List.of_mem_filter hx
      simpa using this
    obtain ⟨m, sq, hm, hsq, rfl⟩ := hform x hxids
    have hmT : m = T := by
      rw [decodeId_fst m w sq hw hsq hm] at hpx
      exact hpx
    subst hmT
    exact Finset.mem_image.mpr ⟨sq, Finset.mem_range.mpr (by omega), rfl⟩
  calc (ids.filter (fun id => decide ((decodeId id).1 = T))).length
      = (ids.filter (fun id => decide ((decodeId id).1 = T))).toFinset.card :=
        (List.toFinset_card_of_nodup hndl).symm
    _ ≤ ((Finset.range 4096).image (fun sq => composeId T w sq)).card :=
        Finset.card_le_card (fun x hx => hsub x (List.mem_toFinset.mp hx))
    _ ≤ (Finset.range 4096).card := Finset.card_image_le
    _ = 4096 := Finset.card_range _

/-- **C2.**  For a Helix instance with a fixed in-range worker id, under
a non-decreasing system clock, every run of successive `generateId`
calls succeeds and produces strictly increasing ids; every issued id
decodes back to the instance's worker id; and within any single
millisecond at most 4096 ids are issued (a 4097th call in the same
millisecond busy-waits and stamps the next millisecond instead). -/
theorem generateId_run_spec (w : Nat) (clocks : List (Nat × Nat))
    (hw : w ≤ 1023) (hv : ValidRun (initHelix w) clocks = true) :
    ∃ ids s', runGenerate (initHelix w) clocks = .ok (ids, s') ∧
      List.Chain' (· < ·) ids ∧
      (∀ id ∈ ids, (decodeId id).2.1 = w) ∧
      ∀ T, (ids.filter (fun id => decide ((decodeId id).1 = T))).length
        ≤ 4096 := by
  cases clocks with
  | nil =>
    exact ⟨[], initHelix w, rfl, trivial, by simp, by simp⟩
  | cons c rest =>
    simp only [ValidRun, Bool.and_eq_true, decide_eq_true_eq] at hv
    obtain ⟨⟨⟨ha, hb⟩, hc⟩, hmatch⟩ := hv
    have hgen : generateId (initHelix w) c.1 c.2 =
        .ok (composeId c.1 w 0, ⟨w, 0, (c.1 : Int)⟩) := by
      simp only [generateId, initHelix]
      rw [if_neg (by omega), if_neg (by omega)]
    simp only [hgen] at hmatch
    obtain ⟨ids, s'', hrun, hw'', hchain, hform⟩ :=
      runGenerate_inv rest ⟨w, 0, (c.1 : Int)⟩ c.1 hw (by exact Nat.zero_le _)
        rfl hb hmatch
    have hform' : ∀ id ∈ composeId c.1 w 0 :: ids,
        ∃ m sq, EPOCH ≤ m ∧ sq ≤ 4095 ∧ id = composeId m w sq := by
      intro x hx
      rcases List.mem_cons.mp hx with rfl | hx
      · exact ⟨c.1, 0, hb, by omega, rfl⟩
      · exact hform x hx
    have hchain' : List.Chain' (· < ·) (composeId c.1 w 0 :: ids) := hchain
    refine ⟨composeId c.1 w 0 :: ids, s'', ?_, hchain', ?_, ?_⟩
    · simp only [runGenerate, hgen, hrun]
    · intro id hid
      obtain ⟨m, sq, hm, hsq, rfl⟩ := hform' id hid
      exact decodeId_workerId m w sq hw hsq
    · exact count_per_millis w hw _ (chain'_lt_nodup _ hchain') hform'

theorem generateId_run_spec_witness :
    (runGenerate (initHelix 7)
      [(EPOCH + 1, EPOCH + 2), (EPOCH + 1, EPOCH + 2),
       (EPOCH + 2, EPOCH + 3)]).isOk = true := by
  obtain ⟨ids, s', h, -, -, -⟩ :=
    generateId_run_spec 7
      [(EPOCH + 1, EPOCH + 2), (EPOCH + 1, EPOCH + 2),
       (EPOCH + 2, EPOCH + 3)]
      (by decide) (by decide)
  rw [h]
  rfl

/-- **C7.**  For an instance whose worker id is in `[0, 1023]` and whose
current timestamp offset fits the 42-bit field, decoding a freshly
generated id returns the instance's worker id and a sequence in
`[0, 4095]`. -/
theorem decodeId_generateId_roundTrip (s : HelixState) (now wait : Nat)
    (hw : s.workerId ≤ 1023) (hE : EPOCH ≤ now)
    (h42 : now - EPOCH < 2 ^ 42) :
    ∀ id s', generateId s now wait = .ok (id, s') →
      (decodeId id).2.1 = s.workerId ∧ (decodeId id).2.2 ≤ 4095 := by
  intro id s' h
  have hmask : ∀ x : Nat, x % 2 ^ 12 ≤ 4095 := fun x => by omega
  unfold generateId at h
  by_cases hlt : (now : Int) < s.lastTimestamp
  · rw [if_pos hlt] at h
    exact absurd h (by simp)
  · rw [if_neg hlt] at h
    by_cases he : (now : Int) = s.lastTimestamp
    · rw [if_pos he] at h
      simp only [seq_and_eq] at h
      by_cases hc : (s.sequence + 1) % 2 ^ 12 = 0
      · rw [if_pos hc] at h
        injection h with h'
        injection h' with h1 h2
        subst h1
        exact ⟨decodeId_workerId _ _ _ hw (hmask _),
          by rw [decodeId_sequence _ _ _ hw (hmask _)]; exact hmask _⟩
      · rw [if_neg hc] at h
        injection h with h'
        injection h' with h1 h2
        subst h1
        exact ⟨decodeId_workerId _ _ _ hw (hmask _),
          by rw [decodeId_sequence _ _ _ hw (hmask _)]; exact hmask _⟩
    · rw [if_neg he] at h
      injection h with h'
      injection h' with h1 h2
      subst h1
      exact ⟨decodeId_workerId _ _ _ hw (by omega),
        by rw [decodeId_sequence _ _ _ hw (by omega)]; exact Nat.zero_le _⟩

theorem decodeId_generateId_roundTrip_witness :
    (decodeId (composeId (EPOCH + 5) 7 0)).2.1 = 7 ∧
    (decodeId (composeId (EPOCH + 5) 7 0)).2.2 ≤ 4095 := by
  have hgen : generateId (initHelix 7) (EPOCH + 5) (EPOCH + 6) =
      .ok (composeId (EPOCH + 5) 7 0, ⟨7, 0, ((EPOCH + 5 : Nat) : Int)⟩) := by
    simp only [generateId, initHelix]
    rw [if_neg (by omega), if_neg (by omega)]
  exact decodeId_generateId_roundTrip (initHelix 7) (EPOCH + 5) (EPOCH + 6)
    (by decide) (by omega) (by omega) _ _ hgen

/-- **C9.**  The constructor rejects an explicitly supplied worker id
with the out-of-range `HelixError` iff it exceeds 1023; `1024` is
rejected and every integer at most 1023 — including negative values —
is accepted. -/
theorem constructWorkerId_spec :
    (∀ w : Int, w > 1023 → constructWorkerId w =
      .error ⟨"Worker ID exceeds maximum allowed value"⟩) ∧
    (∀ w : Int, w ≤ 1023 → constructWorkerId w = .ok w) ∧
    constructWorkerId 1024 =
      .error ⟨"Worker ID exceeds maximum allowed value"⟩ ∧
    constructWorkerId (-5) = .ok (-5) := by
  refine ⟨?_, ?_, ?_, ?_⟩
  · intro w hw
    simp only [constructWorkerId, max_worker_id_eq]
    rw [if_pos (by omega)]
  · intro w hw
    simp only [constructWorkerId, max_worker_id_eq]
    rw [if_neg (by omega)]
  · simp only [constructWorkerId, max_worker_id_eq]
    rw [if_pos (by omega)]
  · simp only [constructWorkerId, max_worker_id_eq]
    rw [if_neg (by omega)]

theorem constructWorkerId_spec_witness :
    constructWorkerId 2000 =
      .error ⟨"Worker ID exceeds maximum allowed value"⟩ :=
  constructWorkerId_spec.1 2000 (by omega)

/-- **C10.**  On in-range inputs the naive composition and the optimized
masked composition agree, hence also produce the same decimal string. -/
theorem compose_variants_equiv (t w s : Nat) (ht : EPOCH ≤ t)
    (ht42 : t - EPOCH < 2 ^ 42) (hw : w ≤ 1023) (hs : s ≤ 4095) :
    generateIdWithTimestamp w s t = composeId t w s ∧
    toString (generateIdWithTimestamp w s t) = toString (composeId t w s) := by
  have he : generateIdWithTimestamp w s t = composeId t w s := by
    simp only [generateIdWithTimestamp, composeId]
    rw [show ((1 : Nat) <<< TIMESTAMP_BITS) - 1 = 2 ^ 42 - 1 from by decide,
      show ((1 : Nat) <<< SEQUENCE_BITS) - 1 = 2 ^ 12 - 1 from by decide,
      Nat.and_pow_two_sub_one_eq_mod, Nat.and_pow_two_sub_one_eq_mod,
      Nat.mod_eq_of_lt ht42, Nat.mod_eq_of_lt (show s < 2 ^ 12 by omega)]
  exact ⟨he, by rw [he]⟩

theorem compose_variants_equiv_witness :
    generateIdWithTimestamp 7 3 (EPOCH + 9) = composeId (EPOCH + 9) 7 3 :=
  (compose_variants_equiv (EPOCH + 9) 7 3 (by omega) (by omega)
    (by decide) (by decide)).1

/-! ## Token codec (`Helix.ts`, lines 106–155 and 185–191)

Tokens are `base64url(JSON(data)) ++ "." ++ base64url(HMAC-SHA256(secret,
payload))`.  The JSON serialiser, UTF-8 transcoding (`Buffer.from` /
`toString`) and the HMAC digest are Node builtins, taken here as
function parameters; base64url is implemented concretely (Node's
unpadded `base64url` alphabet), and token text is carried as `List
Char`. -/

/-- base64url digit at a sextet value (alphabet `A–Za–z0–9-_`). -/
def b64urlChar (n : Nat) : Char :=
  if n < 26 then Char.ofNat (65 + n)
  else if n < 52 then Char.ofNat (97 + (n - 26))
  else if n < 62 then Char.ofNat (48 + (n - 52))
  else if n = 62 then '-'
  else '_'

/-- Sextet value of a base64url digit; `none` on a non-alphabet
character (Node's forgiving decoder skips those). -/
def b64urlVal (c : Char) : Option Nat :=
  if 'A' ≤ c ∧ c ≤ 'Z' then some (c.toNat - 65)
  else if 'a' ≤ c ∧ c ≤ 'z' then some (c.toNat - 97 + 26)
  else if '0' ≤ c ∧ c ≤ '9' then some (c.toNat - 48 + 52)
  else if c = '-' then some 62
  else if c = '_' then some 63
  else none

/-- Unpadded base64url encoding of a byte list, three bytes at a time. -/
def b64urlEncode : List Nat → List Char
  | [] => []
  | [b0] => [b64urlChar (b0 / 4), b64urlChar (b0 % 4 * 16)]
  | [b0, b1] => [b64urlChar (b0 / 4), b64urlChar (b0 % 4 * 16 + b1 / 16),
      b64urlChar (b1 % 16 * 4)]
  | b0 :: b1 :: b2 :: rest =>
      b64urlChar (b0 / 4) :: b64urlChar (b0 % 4 * 16 + b1 / 16) ::
      b64urlChar (b1 % 16 * 4 + b2 / 64) :: b64urlChar (b2 % 64) ::
      b64urlEncode rest

/-- Repack sextet values into bytes, four sextets at a time; a trailing
lone sextet contributes no byte. -/
def b64Pack : List Nat → List Nat
  | [] => []
  | [_] => []
  | [v0, v1] => [v0 * 4 + v1 / 16]
  | [v0, v1, v2] => [v0 * 4 + v1 / 16, v1 % 16 * 16 + v2 / 4]
  | v0 :: v1 :: v2 :: v3 :: rest =>
      (v0 * 4 + v1 / 16) :: (v1 % 16 * 16 + v2 / 4) ::
      (v2 % 4 * 64 + v3) :: b64Pack rest

/-- base64url decoding: skip non-alphabet characters, then repack. -/
def b64urlDecode (cs : List Char) : List Nat :=
  b64Pack (cs.filterMap b64urlVal)

theorem b64urlVal_b64urlChar : ∀ n, n < 64 → b64urlVal (b64urlChar n) = some n := by
  decide

theorem b64urlChar_ne_dot : ∀ n, n < 64 → b64urlChar n ≠ '.' := by
  decide

/-- The encoder inverts on byte lists. -/
theorem b64url_roundTrip :
    ∀ bs : List Nat, (∀ b ∈ bs, b < 256) →
      b64urlDecode (b64urlEncode bs) = bs
  | [], _ => rfl
  | [b0], h => by
    have hb0 : b0 < 256 := h b0 (by simp)
    simp only [b64urlEncode, b64urlDecode, List.filterMap,
      b64urlVal_b64urlChar _ (show b0 / 4 < 64 by omega),
      b64urlVal_b64urlChar _ (show b0 % 4 * 16 < 64 by omega)]
    simp only [b64Pack, List.cons.injEq, and_true]
    omega
  | [b0, b1], h => by
    have hb0 : b0 < 256 := h b0 (by simp)
    have hb1 : b1 < 256 := h b1 (by simp)
    simp only [b64urlEncode, b64urlDecode, List.filterMap,
      b64urlVal_b64urlChar _ (show b0 / 4 < 64 by omega),
      b64urlVal_b64urlChar _ (show b0 % 4 * 16 + b1 / 16 < 64 by omega),
      b64urlVal_b64urlChar _ (show b1 % 16 * 4 < 64 by omega)]
    simp only [b64Pack, List.cons.injEq, and_true]
    omega
  | b0 :: b1 :: b2 :: rest, h => by
    have hb0 : b0 < 256 := h b0 (by simp)
    have hb1 : b1 < 256 := h b1 (by simp)
    have hb2 : b2 < 256 := h b2 (by simp)
    have ih := b64url_roundTrip rest (fun b hb => h b (by simp [hb]))
    simp only [b64urlEncode, b64urlDecode, List.filterMap,
      b64urlVal_b64urlChar _ (show b0 / 4 < 64 by omega),
      b64urlVal_b64urlChar _ (show b0 % 4 * 16 + b1 / 16 < 64 by omega),
      b64urlVal_b64urlChar _ (show b1 % 16 * 4 + b2 / 64 < 64 by omega),
      b64urlVal_b64urlChar _ (show b2 % 64 < 64 by omega)] at ih ⊢
    simp only [b64Pack, List.cons.injEq]
    refine ⟨by omega, by omega, by omega, ?_⟩
    simpa [b64urlDecode] using ih

/-- Encoded byte lists never contain the `.` separator. -/
theorem b64urlEncode_ne_dot :
    ∀ bs : List Nat, (∀ b ∈ bs, b < 256) →
      ∀ c ∈ b64urlEncode bs, c ≠ '.'
  | [], _ => by simp [b64urlEncode]
  | [b0], h => by
    have hb0 : b0 < 256 := h b0 (by simp)
    simp only [b64urlEncode, List.mem_cons, List.not_mem_nil, or_false]
    rintro c (rfl | rfl)
    · exact b64urlChar_ne_dot _ (by omega)
    · exact b64urlChar_ne_dot _ (by omega)
  | [b0, b1], h => by
    have hb0 : b0 < 256 := h b0 (by simp)
    have hb1 : b1 < 256 := h b1 (by simp)
    simp only [b64urlEncode, List.mem_cons, List.not_mem_nil, or_false]
    rintro c (rfl | rfl | rfl)
    · exact b64urlChar_ne_dot _ (by omega)
    · exact b64urlChar_ne_dot _ (by omega)
    · exact b64urlChar_ne_dot _ (by omega)
  | b0 :: b1 :: b2 :: rest, h => by
    have hb0 : b0 < 256 := h b0 (by simp)
    have hb1 : b1 < 256 := h b1 (by simp)
    have hb2 : b2 < 256 := h b2 (by simp)
    have ih := b64urlEncode_ne_dot rest (fun b hb => h b (by simp [hb]))
    simp only [b64urlEncode, List.mem_cons]
    rintro c (rfl | rfl | rfl | rfl | hc)
    · exact b64urlChar_ne_dot _ (by omega)
    · exact b64urlChar_ne_dot _ (by omega)
    · exact b64urlChar_ne_dot _ (by omega)
    · exact b64urlChar_ne_dot _ (by omega)
    · exact ih c hc

/-- `token.split('.')` on character lists. -/
def splitOnDot : List Char → List (List Char)
  | [] => [[]]
  | c :: rest =>
    if c = '.' then [] :: splitOnDot rest
    else
      match splitOnDot rest with
      | [] => [[c]]
      | p :: ps => (c :: p) :: ps

theorem splitOnDot_ne_nil : ∀ l : List Char, splitOnDot l ≠ [] := by
  intro l
  induction l with
  | nil => simp [splitOnDot]
  | cons c rest ih =>
    simp only [splitOnDot]
    by_cases hc : c = '.'
    · simp [hc]
    · rw [if_neg hc]
      cases hsp : splitOnDot rest with
      | nil => simp
      | cons p ps => simp

theorem splitOnDot_no_dot (l : List Char) (h : ∀ c ∈ l, c ≠ '.') :
    splitOnDot l = [l] := by
  induction l with
  | nil => rfl
  | cons c rest ih =>
    have hc : c ≠ '.' := h c (by simp)
    simp only [splitOnDot, if_neg hc,
      ih (fun x hx => h x (by simp [hx]))]

theorem splitOnDot_append (p s : List Char) (hp : ∀ c ∈ p, c ≠ '.') :
    splitOnDot (p ++ '.' :: s) = p :: splitOnDot s := by
  induction p with
  | nil => simp [splitOnDot]
  | cons c rest ih =>
    have hc : c ≠ '.' := hp c (by simp)
    have ih' := ih (fun x hx => hp x (by simp [hx]))
    simp only [List.cons_append, splitOnDot, if_neg hc]
    rw [show rest.append ('.' :: s) = rest ++ '.' :: s from rfl, ih']

/-- Token-path failures.  The first four are thrown as `HelixError`s in
the source; `timingSafeEqualLength` models the raw `RangeError` that
Node's `crypto.timingSafeEqual` throws when the two buffers have
different byte lengths — `verifyToken`'s `try` block does not cover the
comparison, so that error escapes as-is. -/
inductive TokenError where
  | secretNotConfigured
  | invalidFormat
  | invalidSignature
  | payloadCorrupt
  | timingSafeEqualLength
deriving DecidableEq

def TokenError.isHelixError : TokenError → Bool
  | .timingSafeEqualLength => false
  | _ => true

/-- `Helix.signPayload` (lines 185–191): base64url of the HMAC-SHA256
digest of the payload text under the token secret. -/
def signPayload (hmac : String → List Char → List Nat) (secret : String)
    (payload : List Char) : List Char :=
  b64urlEncode (hmac secret payload)

/-- `Helix.generateToken` (lines 106–119). -/
def generateToken {α : Type} (stringify : α → String)
    (utf8Enc : String → List Nat) (hmac : String → List Char → List Nat)
    (secret : String) (data : α) : Except TokenError (List Char) :=
  if secret = "" then .error .secretNotConfigured
  else
    let payload := b64urlEncode (utf8Enc (stringify data))
    let signature := signPayload hmac secret payload
    .ok (payload ++ '.' :: signature)

/-- `Helix.verifyToken` (lines 127–155).  `crypto.timingSafeEqual`
compares the UTF-8 bytes of the supplied and recomputed signatures and
throws (uncaught) on a byte-length mismatch; on equal lengths a
mismatch raises the `Invalid token signature` `HelixError`.  The
payload is then base64url-decoded, UTF-8 decoded and JSON-parsed, any
parse failure becoming `Failed to decode token payload`. -/
def verifyToken {α : Type} (parse : String → Option α)
    (utf8Enc : String → List Nat) (utf8Dec : List Nat → String)
    (hmac : String → List Char → List Nat) (secret : String)
    (token : List Char) : Except TokenError α :=
  if secret = "" then .error .secretNotConfigured
  else
    match splitOnDot token with
    | [payload, signature] =>
      let expected := signPayload hmac secret payload
      if (utf8Enc (String.mk signature)).length ≠
          (utf8Enc (String.mk expected)).length then
        .error .timingSafeEqualLength
      else if utf8Enc (String.mk signature) = utf8Enc (String.mk expected) then
        match parse (utf8Dec (b64urlDecode payload)) with
        | some v => .ok v
        | none => .error .payloadCorrupt
      else .error .invalidSignature
    | _ => .error .invalidFormat

/-- **C3.**  Verifying a freshly generated token succeeds and returns
exactly `JSON.parse(JSON.stringify(D))` — the JSON round-trip of the
embedded data (type loss happens only inside `JSON`, which is a Node
builtin taken as a parameter here together with UTF-8 transcoding and
the HMAC digest). -/
theorem token_roundTrip_spec {α : Type} (stringify : α → String)
    (parse : String → Option α) (utf8Enc : String → List Nat)
    (utf8Dec : List Nat → String) (hmac : String → List Char → List Nat)
    (secret : String) (D : α) (v : α)
    (hsecret : secret ≠ "")
    (hbytes : ∀ b ∈ utf8Enc (stringify D), b < 256)
    (hdigest : ∀ b ∈ hmac secret (b64urlEncode (utf8Enc (stringify D))),
      b < 256)
    (hutf : utf8Dec (utf8Enc (stringify D)) = stringify D)
    (hparse : parse (stringify D) = some v) :
    ∃ tok, generateToken stringify utf8Enc hmac secret D = .ok tok ∧
      verifyToken parse utf8Enc utf8Dec hmac secret tok = .ok v := by
  refine ⟨b64urlEncode (utf8Enc (stringify D)) ++ '.' ::
    signPayload hmac secret (b64urlEncode (utf8Enc (stringify D))), ?_, ?_⟩
  · simp only [generateToken, if_neg hsecret]
  · have hsplit : splitOnDot (b64urlEncode (utf8Enc (stringify D)) ++ '.' ::
        signPayload hmac secret (b64urlEncode (utf8Enc (stringify D)))) =
        [b64urlEncode (utf8Enc (stringify D)),
         signPayload hmac secret (b64urlEncode (utf8Enc (stringify D)))] := by
      rw [splitOnDot_append _ _ (b64urlEncode_ne_dot _ hbytes)]
      simp only [signPayload]
      rw [splitOnDot_no_dot _ (b64urlEncode_ne_dot _ hdigest)]
    simp only [verifyToken, if_neg hsecret, hsplit]
    simp only [ne_eq, not_true_eq_false, if_true, if_false, reduceIte]
    rw [b64url_roundTrip _ hbytes, hutf, hparse]

theorem token_roundTrip_spec_witness :
    verifyToken (fun s => if s = "1" then some 1 else none)
      (fun s => s.toList.map Char.toNat)
      (fun l => if l = [49] then "1" else "")
      (fun _ _ => [222, 173]) "k" ("MQ.3q0".toList) = .ok 1 := by
  obtain ⟨tok, hgen, hver⟩ := token_roundTrip_spec (fun _ => "1")
    (fun s => if s = "1" then some 1 else none)
    (fun s => s.toList.map Char.toNat)
    (fun l => if l = [49] then "1" else "")
    (fun _ _ => [222, 173]) "k" 1 1
    (by decide) (by decide) (by decide) (by decide) (by decide)
  have hev : generateToken (fun _ => "1") (fun s => s.toList.map Char.toNat)
      (fun _ _ => [222, 173]) "k" 1 = .ok ("MQ.3q0".toList) := by rfl
  have h2 := hgen.symm.trans hev
  injection h2 with h3
  rw [h3] at hver
  exact hver

/-- **C5** (`code_bug`).  A well-formed two-part token whose signature
segment has a different byte length than the recomputed signature makes
`verifyToken` hit the uncaught `crypto.timingSafeEqual` length
`RangeError` — a raw crypto exception, not the `Invalid token
signature` `HelixError` the spec (and the function's own `@throws`
documentation) promise; only equal-length mismatches produce the tagged
error. -/
theorem verifyToken_length_mismatch_bug :
    verifyToken (fun s => some s) (fun s => s.toList.map Char.toNat)
      (fun _ => "") (fun _ _ => List.replicate 32 0) "k"
      ("eyJhIjoxfQ.AA".toList) = .error .timingSafeEqualLength ∧
    TokenError.timingSafeEqualLength.isHelixError = false ∧
    verifyToken (fun s => some s) (fun s => s.toList.map Char.toNat)
      (fun _ => "") (fun _ _ => List.replicate 32 0) "k"
      ("eyJhIjoxfQ.BBBBBBBBBBBBBBBBBBBBBBBBBBBBBBBBBBBBBBBBBBB".toList) =
      .error .invalidSignature ∧
    TokenError.invalidSignature.isHelixError = true := by
  refine ⟨by rfl, rfl, by rfl, rfl⟩

/-! ## TOTP engine (`auth.ts`, lines 363–398)

`generateTOTPCode` is HOTP over HMAC-SHA1 with counter
`floor(timestamp / 30)`; the key is the base64 decoding of the secret.
HMAC-SHA1 and `Buffer.from(secret, 'base64')` are Node builtins, taken
as parameters (a real digest is 20 bytes; byte reads model `hash[i]`).
`verifyTOTP` compares against the codes of the three adjacent steps and
is total — it fails closed, never throwing. -/

/-- The 8-byte big-endian counter buffer (`writeBigUInt64BE`). -/
def beBytes8 (n : Nat) : List Nat :=
  [n / 2 ^ 56 % 256, n / 2 ^ 48 % 256, n / 2 ^ 40 % 256, n / 2 ^ 32 % 256,
   n / 2 ^ 24 % 256, n / 2 ^ 16 % 256, n / 2 ^ 8 % 256, n % 256]

/-- `String.padStart(6, '0')`. -/
def padStart6 (s : String) : String :=
  String.mk (List.replicate (6 - s.length) '0') ++ s

/-- `Auth.generateTOTPCode` (lines 382–398): HMAC-SHA1 over the counter,
dynamic truncation, six decimal digits. -/
def generateTOTPCode (hmacSha1 : List Nat → List Nat → List Nat)
    (base64Dec : String → List Nat) (secret : String)
    (timestamp : Nat) : String :=
  let key := base64Dec secret
  let counter := beBytes8 (timestamp / 30)
  let hash := hmacSha1 key counter
  let offset := hash.getD (hash.length - 1) 0 &&& 0xf
  let code := ((hash.getD offset 0 &&& 0x7f) <<< 24) |||
              ((hash.getD (offset + 1) 0 &&& 0xff) <<< 16) |||
              ((hash.getD (offset + 2) 0 &&& 0xff) <<< 8) |||
              (hash.getD (offset + 3) 0 &&& 0xff)
  padStart6 (toString (code % 1000000))

/-- `Auth.verifyTOTP` (lines 363–377): accept iff the code equals the
generated code of step `now - 30`, `now`, or `now + 30`. -/
def verifyTOTP (hmacSha1 : List Nat → List Nat → List Nat)
    (base64Dec : String → List Nat) (secret code : String)
    (now : Nat) : Bool :=
  (code == generateTOTPCode hmacSha1 base64Dec secret (now - 30)) ||
  (code == generateTOTPCode hmacSha1 base64Dec secret now) ||
  (code == generateTOTPCode hmacSha1 base64Dec secret (now + 30))

/-- **C6.**  The code generated at `T` verifies at `T`, `T + 30` and
`T - 30`; provided the codes of the neighbouring 30-second counters
differ from it, it is rejected at `T + 60` and `T - 60`; and any code
matching none of the three window steps is rejected (the verifier is a
total function — it returns `false` rather than throwing).  `90 ≤ T`
keeps every referenced time step a valid non-negative timestamp. -/
theorem totp_window_spec (hmacSha1 : List Nat → List Nat → List Nat)
    (base64Dec : String → List Nat) (secret : String) (T : Nat)
    (hT : 90 ≤ T)
    (hdiff :
      generateTOTPCode hmacSha1 base64Dec secret (T + 30) ≠
        generateTOTPCode hmacSha1 base64Dec secret T ∧
      generateTOTPCode hmacSha1 base64Dec secret (T + 60) ≠
        generateTOTPCode hmacSha1 base64Dec secret T ∧
      generateTOTPCode hmacSha1 base64Dec secret (T + 90) ≠
        generateTOTPCode hmacSha1 base64Dec secret T ∧
      generateTOTPCode hmacSha1 base64Dec secret (T - 30) ≠
        generateTOTPCode hmacSha1 base64Dec secret T ∧
      generateTOTPCode hmacSha1 base64Dec secret (T - 60) ≠
        generateTOTPCode hmacSha1 base64Dec secret T ∧
      generateTOTPCode hmacSha1 base64Dec secret (T - 90) ≠
        generateTOTPCode hmacSha1 base64Dec secret T) :
    verifyTOTP hmacSha1 base64Dec secret
      (generateTOTPCode hmacSha1 base64Dec secret T) T = true ∧
    verifyTOTP hmacSha1 base64Dec secret
      (generateTOTPCode hmacSha1 base64Dec secret T) (T + 30) = true ∧
    verifyTOTP hmacSha1 base64Dec secret
      (generateTOTPCode hmacSha1 base64Dec secret T) (T - 30) = true ∧
    verifyTOTP hmacSha1 base64Dec secret
      (generateTOTPCode hmacSha1 base64Dec secret T) (T + 60) = false ∧
    verifyTOTP hmacSha1 base64Dec secret
      (generateTOTPCode hmacSha1 base64Dec secret T) (T - 60) = false ∧
    ∀ c : String,
      c ≠ generateTOTPCode hmacSha1 base64Dec secret (T - 30) →
      c ≠ generateTOTPCode hmacSha1 base64Dec secret T →
      c ≠ generateTOTPCode hmacSha1 base64Dec secret (T + 30) →
      verifyTOTP hmacSha1 base64Dec secret c T = false := by
  obtain ⟨d1, d2, d3, d4, d5, d6⟩ := hdiff
  refine ⟨?_, ?_, ?_, ?_, ?_, ?_⟩
  · simp [verifyTOTP]
  · have e : T + 30 - 30 = T := by omega
    simp [verifyTOTP, e]
  · have e : T - 30 + 30 = T := by omega
    simp [verifyTOTP, e]
  · have e : T + 60 - 30 = T + 30 := by omega
    simp only [verifyTOTP, e,
      beq_eq_false_iff_ne.mpr d1.symm, beq_eq_false_iff_ne.mpr d2.symm,
      beq_eq_false_iff_ne.mpr d3.symm, Bool.or_self, Bool.or_false]
  · have e1 : T - 60 - 30 = T - 90 := by omega
    have e2 : T - 60 + 30 = T - 30 := by omega
    simp only [verifyTOTP, e1, e2,
      beq_eq_false_iff_ne.mpr d4.symm, beq_eq_false_iff_ne.mpr d5.symm,
      beq_eq_false_iff_ne.mpr d6.symm, Bool.or_self, Bool.or_false]
  · intro c h1 h2 h3
    simp only [verifyTOTP, beq_eq_false_iff_ne.mpr h1,
      beq_eq_false_iff_ne.mpr h2, beq_eq_false_iff_ne.mpr h3,
      Bool.or_self, Bool.or_false]

theorem totp_window_spec_witness :
    verifyTOTP
      (fun _ m => m.reverse.take 20 ++
        List.replicate (20 - (m.reverse.take 20).length) 0)
      (fun _ => []) "s"
      (generateTOTPCode
        (fun _ m => m.reverse.take 20 ++
          List.replicate (20 - (m.reverse.take 20).length) 0)
        (fun _ => []) "s" 90) 90 = true :=
  (totp_window_spec
    (fun _ m => m.reverse.take 20 ++
      List.replicate (20 - (m.reverse.take 20).length) 0)
    (fun _ => []) "s" 90 (by decide)
    (by refine ⟨?_, ?_, ?_, ?_, ?_, ?_⟩ <;> decide)).1

/-! ## Device-type detection (`auth.ts`, lines 131–147)

`detectDeviceType` lower-cases the user agent, then tests three
regexes in order: tablet (case-insensitive), mobile and desktop (both
case-SENSITIVE, applied to the already lower-cased string).  The
regexes are alternations of literal substrings plus one negative
lookahead (`android(?!.*mobi)`), modelled as substring searches. -/

inductive DeviceType where
  | mobile
  | tablet
  | desktop
  | unknown
deriving DecidableEq

/-- Substring test (`RegExp.test` with a literal pattern). -/
def hasSub (pat : List Char) : List Char → Bool
  | [] => pat.isEmpty
  | c :: rest => pat.isPrefixOf (c :: rest) || hasSub pat rest

/-- `android(?!.*mobi)`: some occurrence of `android` with no later
`mobi` in the input. -/
def androidNoMobi : List Char → Bool
  | [] => false
  | c :: rest =>
    ("android".toList.isPrefixOf (c :: rest) &&
      !(hasSub "mobi".toList ((c :: rest).drop 7))) ||
    androidNoMobi rest

/-- `Auth.detectDeviceType` (lines 131–147).  `toLowerCase` is modelled
per character by `Char.toLower` (the user agents at issue are ASCII). -/
def detectDeviceType (userAgent : String) : DeviceType :=
  let ua := userAgent.toList.map Char.toLower
  if hasSub "tablet".toList ua || hasSub "ipad".toList ua ||
      hasSub "playbook".toList ua || hasSub "silk".toList ua ||
      androidNoMobi ua then .tablet
  else if hasSub "Mobile".toList ua || hasSub "Android".toList ua ||
      hasSub "iPhone".toList ua || hasSub "iPod".toList ua ||
      hasSub "IEMobile".toList ua || hasSub "BlackBerry".toList ua ||
      hasSub "Kindle".toList ua || hasSub "Silk-Accelerated".toList ua ||
      hasSub "hpwOS".toList ua || hasSub "webOS".toList ua ||
      hasSub "Opera Mobi".toList ua || hasSub "Opera Mini".toList ua
    then .mobile
  else if hasSub "Macintosh".toList ua || hasSub "Windows NT".toList ua ||
      hasSub "Linux".toList ua || hasSub "Ubuntu".toList ua ||
      hasSub "X11".toList ua then .desktop
  else .unknown

theorem mem_of_hasSub :
    ∀ pat text : List Char, hasSub pat text = true → ∀ c ∈ pat, c ∈ text := by
  intro pat text
  induction text with
  | nil =>
    intro h c hc
    simp only [hasSub, List.isEmpty_iff] at h
    subst h
    simp at hc
  | cons t rest ih =>
    intro h c hc
    rcases Bool.or_eq_true_iff.mp h with hp | hs
    · exact (List.isPrefixOf_iff_prefix.mp hp).subset hc
    · exact List.mem_cons_of_mem _ (ih hs c hc)

theorem toLower_toNat_not_upper (c : Char) :
    ¬(65 ≤ (Char.toLower c).toNat ∧ (Char.toLower c).toNat ≤ 90) := by
  simp only [Char.toLower]
  by_cases h : c.toNat ≥ 65 ∧ c.toNat ≤ 90
  · rw [if_pos h]
    have hofnat : (Char.ofNat (c.toNat + 32)).toNat = c.toNat + 32 := by
      have hv : (c.toNat + 32).isValidChar := Or.inl (by omega)
      rw [Char.ofNat, dif_pos hv]
      rfl
    omega
  · rw [if_neg h]
    omega

/-- An upper-case ASCII letter never occurs in a lower-cased string. -/
theorem hasSub_lower_false (pat : List Char) (l : List Char) (u : Char)
    (hu65 : 65 ≤ u.toNat) (hu90 : u.toNat ≤ 90) (hpu : u ∈ pat) :
    hasSub pat (l.map Char.toLower) = false := by
  by_contra hne
  have h : hasSub pat (l.map Char.toLower) = true := by
    revert hne
    cases hasSub pat (l.map Char.toLower) <;> simp
  have hmem : u ∈ l.map Char.toLower := mem_of_hasSub _ _ h u hpu
  obtain ⟨c, -, hc⟩ := List.mem_map.mp hmem
  exact toLower_toNat_not_upper c (by rw [hc]; exact ⟨hu65, hu90⟩)

/-- **C4** (`code_bug`).  The mobile and desktop regexes are
case-sensitive but are tested against the lower-cased user agent, so
they can never match: an iPhone user agent and a Windows NT user agent
are both classified `unknown`, and no user agent whatsoever is
classified `mobile` or `desktop` — the ordered precedence the spec
describes is unreachable past the tablet tier. -/
theorem detectDeviceType_caseFold_bug :
    detectDeviceType
      "Mozilla/5.0 (iPhone; CPU iPhone OS 14_0 like Mac OS X)" =
      .unknown ∧
    detectDeviceType "Mozilla/5.0 (Windows NT 10.0; Win64; x64)" =
      .unknown ∧
    ∀ ua : String, detectDeviceType ua ≠ .mobile ∧
      detectDeviceType ua ≠ .desktop := by
  refine ⟨by decide, by decide, ?_⟩
  intro ua
  have m1 := hasSub_lower_false "Mobile".toList ua.toList 'M'
    (by decide) (by decide) (by decide)
  have m2 := hasSub_lower_false "Android".toList ua.toList 'A'
    (by decide) (by decide) (by decide)
  have m3 := hasSub_lower_false "iPhone".toList ua.toList 'P'
    (by decide) (by decide) (by decide)
  have m4 := hasSub_lower_false "iPod".toList ua.toList 'P'
    (by decide) (by decide) (by decide)
  have m5 := hasSub_lower_false "IEMobile".toList ua.toList 'I'
    (by decide) (by decide) (by decide)
  have m6 := hasSub_lower_false "BlackBerry".toList ua.toList 'B'
    (by decide) (by decide) (by decide)
  have m7 := hasSub_lower_false "Kindle".toList ua.toList 'K'
    (by decide) (by decide) (by decide)
  have m8 := hasSub_lower_false "Silk-Accelerated".toList ua.toList 'S'
    (by decide) (by decide) (by decide)
  have m9 := hasSub_lower_false "hpwOS".toList ua.toList 'O'
    (by decide) (by decide) (by decide)
  have m10 := hasSub_lower_false "webOS".toList ua.toList 'O'
    (by decide) (by decide) (by decide)
  have m11 := hasSub_lower_false "Opera Mobi".toList ua.toList 'O'
    (by decide) (by decide) (by decide)
  have m12 := hasSub_lower_false "Opera Mini".toList ua.toList 'O'
    (by decide) (by decide) (by decide)
  have d1 := hasSub_lower_false "Macintosh".toList ua.toList 'M'
    (by decide) (by decide) (by decide)
  have d2 := hasSub_lower_false "Windows NT".toList ua.toList 'W'
    (by decide) (by decide) (by decide)
  have d3 := hasSub_lower_false "Linux".toList ua.toList 'L'
    (by decide) (by decide) (by decide)
  have d4 := hasSub_lower_false "Ubuntu".toList ua.toList 'U'
    (by decide) (by decide) (by decide)
  have d5 := hasSub_lower_false "X11".toList ua.toList 'X'
    (by decide) (by decide) (by decide)
  constructor
  · simp only [detectDeviceType, m1, m2, m3, m4, m5, m6, m7, m8, m9, m10,
      m11, m12, d1, d2, d3, d4, d5, Bool.or_false, Bool.false_or]
    split
    · simp
    · simp
  · simp only [detectDeviceType, m1, m2, m3, m4, m5, m6, m7, m8, m9, m10,
      m11, m12, d1, d2, d3, d4, d5, Bool.or_false, Bool.false_or]
    split
    · simp
    · simp

theorem detectDeviceType_caseFold_bug_witness :
    detectDeviceType
      "Mozilla/5.0 (iPhone; CPU iPhone OS 14_0 like Mac OS X)" =
      DeviceType.unknown :=
  detectDeviceType_caseFold_bug.1

/-! ## Session authority (`auth.ts`)

The session table is an in-memory `Map` keyed by session id, embedded
as an association list with pairwise-distinct keys. -/

structure Location where
  country : Option String
  city : Option String
  timezone : Option String
deriving DecidableEq

structure AuthDeviceInfo where
  userAgent : String
  ip : String
  location : Option Location
  deviceType : Option DeviceType
deriving DecidableEq

/-- `SessionData` (`auth.ts`, lines 42–56). -/
structure SessionData where
  userId : String
  deviceInfo : AuthDeviceInfo
  isRememberMe : Bool
  lastActivity : Nat
deriving DecidableEq

/-- `TokenData` (`auth.ts`, lines 61–70); `exp`/`iat` are Unix seconds. -/
structure TokenData where
  sessionId : String
  userId : String
  roles : List String
  permissions : List String
  deviceInfo : AuthDeviceInfo
  isRememberMe : Bool
  exp : Nat
  iat : Nat
deriving DecidableEq

/-- `AuthError` (`auth.ts`, lines 8–13): message plus machine-readable
code. -/
structure AuthError where
  message : String
  code : String
deriving DecidableEq

/-- `this.sessions.has(sessionId)`. -/
def hasSession (sessions : List (String × SessionData)) (sid : String) :
    Bool :=
  sessions.any (fun p => p.1 == sid)

/-- Modelled from the spec: `Helix.decodeToken` — the Token Codec decode
step called by `Auth.validateAccessToken` (`auth.ts` line 278) — is
absent from `src/`; only its caller, the test suite and the docs
reference it.  Per the spec ("decode via the Token Codec"), decoding
either yields the embedded `TokenData` or fails with a codec-level
error, so it is modelled as an arbitrary function of this type. -/
def TokenDecoder : Type := String → Except Unit TokenData

/-- `Auth.validateAccessToken` (lines 276–298): decode, then expiry
check, then session-existence check; the surrounding `try`/`catch`
rethrows `AuthError`s and normalises every other failure (i.e. any
codec failure) to `INVALID_TOKEN`. -/
def validateAccessToken (decodeToken : TokenDecoder)
    (sessions : List (String × SessionData)) (now : Nat)
    (token : String) : Except AuthError TokenData :=
  match decodeToken token with
  | .error _ => .error ⟨"Invalid token", "INVALID_TOKEN"⟩
  | .ok tokenData =>
    if tokenData.exp < now then
      .error ⟨"Token expired", "TOKEN_EXPIRED"⟩
    else if !(hasSession sessions tokenData.sessionId) then
      .error ⟨"Session not found", "SESSION_NOT_FOUND"⟩
    else
      .ok tokenData

/-- **C1.**  `validateAccessToken` fails `TOKEN_EXPIRED` when the
decoded `exp` is in the past, `SESSION_NOT_FOUND` when the decoded
session id is absent from the table, returns the decoded data
otherwise, and normalises every codec-level failure to
`INVALID_TOKEN`. -/
theorem validateAccessToken_spec (decodeToken : TokenDecoder)
    (sessions : List (String × SessionData)) (now : Nat) (token : String) :
    (∀ e, decodeToken token = .error e →
      validateAccessToken decodeToken sessions now token =
        .error ⟨"Invalid token", "INVALID_TOKEN"⟩) ∧
    (∀ td, decodeToken token = .ok td → td.exp < now →
      validateAccessToken decodeToken sessions now token =
        .error ⟨"Token expired", "TOKEN_EXPIRED"⟩) ∧
    (∀ td, decodeToken token = .ok td → ¬td.exp < now →
      hasSession sessions td.sessionId = false →
      validateAccessToken decodeToken sessions now token =
        .error ⟨"Session not found", "SESSION_NOT_FOUND"⟩) ∧
    (∀ td, decodeToken token = .ok td → ¬td.exp < now →
      hasSession sessions td.sessionId = true →
      validateAccessToken decodeToken sessions now token = .ok td) := by
  refine ⟨?_, ?_, ?_, ?_⟩
  · intro e he
    simp [validateAccessToken, he]
  · intro td htd hexp
    simp [validateAccessToken, htd, hexp]
  · intro td htd hexp hsess
    simp [validateAccessToken, htd, hexp, hsess]
  · intro td htd hexp hsess
    simp [validateAccessToken, htd, hexp, hsess]

theorem validateAccessToken_spec_witness :
    validateAccessToken (fun _ => .error ()) [] 0 "t" =
      .error ⟨"Invalid token", "INVALID_TOKEN"⟩ :=
  (validateAccessToken_spec (fun _ => .error ()) [] 0 "t").1 () rfl

/-- `Auth.revokeSession` (lines 338–340): `sessions.delete(sessionId)`. -/
def revokeSession (sessions : List (String × SessionData))
    (sessionId : String) : List (String × SessionData) :=
  sessions.filter (fun p => !(p.1 == sessionId))

/-- `Auth.cleanupSessions` (lines 421–430): iterate over the entries and
revoke every session idle for more than 30 days. -/
def cleanupSessions (now : Nat)
    (sessions : List (String × SessionData)) :
    List (String × SessionData) :=
  sessions.foldl (fun acc p =>
    if now - p.2.lastActivity > 30 * 24 * 60 * 60 then
      revokeSession acc p.1
    else acc) sessions

/-- The revoking fold deletes from the accumulator exactly the keys of
the stale entries of the iterated list. -/
theorem beq_symm_str (a b : String) : (a == b) = (b == a) := by
  by_cases h : a = b
  · simp [h]
  · simp [h, Ne.symm h]

theorem foldl_cleanup_eq (now : Nat) :
    ∀ (l acc : List (String × SessionData)),
      List.foldl (fun acc p =>
        if now - p.2.lastActivity > 30 * 24 * 60 * 60 then
          revokeSession acc p.1
        else acc) acc l =
      acc.filter (fun q => !(l.any (fun p =>
        decide (now - p.2.lastActivity > 30 * 24 * 60 * 60) &&
          (p.1 == q.1))))
  | [], acc => by simp
  | p :: l, acc => by
    simp only [List.foldl_cons, List.any_cons]
    by_cases hs : now - p.2.lastActivity > 30 * 24 * 60 * 60
    · rw [if_pos hs, foldl_cleanup_eq now l (revokeSession acc p.1),
        revokeSession, List.filter_filter]
      apply List.filter_congr
      intro q _
      simp only [hs, decide_True, Bool.and_true, Bool.true_and, Bool.not_or,
        Bool.and_comm, beq_symm_str p.1 q.1]
    · rw [if_neg hs, foldl_cleanup_eq now l acc]
      apply List.filter_congr
      intro q _
      simp [hs]

/-- **C8.**  `cleanupSessions` keeps exactly the sessions idle for at
most 30 days, each entry unchanged: it equals a filter of the table; in
particular an entry with `lastActivity = now - 31·86400` is removed
(no entry with its key survives) and one with
`lastActivity = now - 29·86400` survives unchanged. -/
theorem cleanupSessions_spec (now : Nat)
    (sessions : List (String × SessionData))
    (hnd : (sessions.map Prod.fst).Nodup) :
    cleanupSessions now sessions =
      sessions.filter (fun p =>
        !decide (now - p.2.lastActivity > 30 * 24 * 60 * 60)) ∧
    (∀ sid sd, (sid, sd) ∈ sessions → sd.lastActivity + 31 * 86400 = now →
      sid ∉ (cleanupSessions now sessions).map Prod.fst) ∧
    (∀ sid sd, (sid, sd) ∈ sessions → sd.lastActivity + 29 * 86400 = now →
      (sid, sd) ∈ cleanupSessions now sessions) := by
  have hmain : cleanupSessions now sessions =
      sessions.filter (fun p =>
        !decide (now - p.2.lastActivity > 30 * 24 * 60 * 60)) := by
    rw [cleanupSessions, foldl_cleanup_eq now sessions sessions]
    apply List.filter_congr
    intro q hq
    by_cases hsq : now - q.2.lastActivity > 30 * 24 * 60 * 60
    · have hany : sessions.any (fun p =>
          decide (now - p.2.lastActivity > 30 * 24 * 60 * 60) &&
            (p.1 == q.1)) = true := by
        refine List.any_eq_true.mpr ⟨q, hq, ?_⟩
        simp [hsq]
      simp [hany, hsq]
    · have hany : sessions.any (fun p =>
          decide (now - p.2.lastActivity > 30 * 24 * 60 * 60) &&
            (p.1 == q.1)) = false := by
        refine List.any_eq_false.mpr ?_
        intro p hp
        intro hcontra
        obtain ⟨hstale, hkey⟩ := Bool.and_eq_true_iff.mp hcontra
        have hpq : p = q := List.inj_on_of_nodup_map hnd hp hq
          (by exact beq_iff_eq.mp hkey)
        rw [hpq] at hstale
        exact hsq (of_decide_eq_true hstale)
      simp [hany, hsq]
  refine ⟨hmain, ?_, ?_⟩
  · intro sid sd hmem hla hin
    rw [hmain] at hin
    obtain ⟨q, hqf, hq1⟩ := List.mem_map.mp hin
    have hqmem : q ∈ sessions := List.mem_of_mem_filter hqf
    have hqpred := List.of_mem_filter hqf
    have hqe : q = (sid, sd) :=
      List.inj_on_of_nodup_map hnd hqmem hmem (by simp [hq1])
    rw [hqe] at hqpred
    simp only [Bool.not_eq_true] at hqpred
    have : now - sd.lastActivity > 30 * 24 * 60 * 60 := by omega
    simp [this] at hqpred
  · intro sid sd hmem hla
    rw [hmain]
    refine List.mem_filter.mpr ⟨hmem, ?_⟩
    have : ¬(now - sd.lastActivity > 30 * 24 * 60 * 60) := by omega
    simp [this]

theorem cleanupSessions_spec_witness :
    cleanupSessions 2678400
      [("s1", ⟨"u", ⟨"ua", "ip", none, none⟩, false, 0⟩),
       ("s2", ⟨"u", ⟨"ua", "ip", none, none⟩, false, 172800⟩)] =
      [("s2", ⟨"u", ⟨"ua", "ip", none, none⟩, false, 172800⟩)] := by
  have h := (cleanupSessions_spec 2678400
    [("s1", ⟨"u", ⟨"ua", "ip", none, none⟩, false, 0⟩),
     ("s2", ⟨"u", ⟨"ua", "ip", none, none⟩, false, 172800⟩)]
    (by decide)).1
  rw [h]
  rfl

end NodeUtils
